import Mathlib

/-!
Shallow embedding of the `pq-zkp` repository (zkp-dsa-r1cs): a DSA-style
signature-verification relation expressed as an R1CS over the BLS12-381
scalar field, together with the integer helpers used to compute witness
values (`src/zkp-dsa-r1cs/src/utils.rs`) and the constraint synthesis
routine (`src/zkp-dsa-r1cs/src/circuit.rs`).

Machine integers are modelled as `Nat`/`Int` with explicit wrap-around
(`% 2^64`, two's-complement wrap for `i64`) at the points where the Rust
code can overflow or cast.  Rust runtime panics (division or remainder by
zero) are modelled as an explicit `panic` outcome.
-/

/-- Order of the BLS12-381 scalar field `Fr` (the `ark_bls12_381::Fr`
modulus), i.e. the field every circuit value lives in. -/
def blsR : ℕ := 52435875175126190479447740508185965837690552500527637822603658699938581184513

/-- The circuit field: `ark_bls12_381::Fr`, modelled by its canonical
representatives. -/
abbrev F : Type := ZMod blsR

/-- `SynthesisError` variants of `ark_relations` that this code can
produce. Only `AssignmentMissing` is ever constructed by the repository. -/
inductive SynthErr : Type where
  | assignmentMissing : SynthErr
  deriving DecidableEq, Repr

/-- Result of a fallible witness computation: a value, a propagated
`SynthesisError`, or a Rust runtime panic (division/remainder by zero). -/
inductive MRes : Type where
  | ok : ℕ → MRes
  | err : SynthErr → MRes
  | panic : MRes
  deriving DecidableEq, Repr

/-- Reinterpret a `u64` value as an `i64` (Rust `as i64`: same 64-bit
pattern, two's complement). -/
def u64AsI64 (x : ℕ) : ℤ := if x < 2 ^ 63 then (x : ℤ) else (x : ℤ) - 2 ^ 64

/-- Reinterpret an `i64` value as a `u64` (Rust `as u64`: same 64-bit
pattern), i.e. the value modulo `2^64`. -/
def i64AsU64 (z : ℤ) : ℕ := (z % 2 ^ 64).toNat

/-- Two's-complement wrap of an integer into the `i64` range, the result of
an overflowing `i64` arithmetic operation in Rust release mode. -/
def iwrap64 (z : ℤ) : ℤ := (z + 2 ^ 63) % 2 ^ 64 - 2 ^ 63

/-- Fuel-indexed evaluator for `extended_gcd` from `utils.rs`.  The fuel
only bounds the recursion depth; `extended_gcd` below supplies enough fuel
that the bound is never hit, and `extended_gcd_unfold` recovers the
original recursive equation.  Rust `%` and `/` on `i64` are truncated
division, i.e. `Int.tmod` and `Int.tdiv`. -/
def egcdFuel : ℕ → ℤ → ℤ → ℤ × ℤ × ℤ
  | 0, _, b => (b, 0, 1)
  | f + 1, a, b =>
    if a = 0 then (b, 0, 1)
    else
      let r := egcdFuel f (Int.tmod b a) a
      (r.1, r.2.2 - Int.tdiv b a * r.2.1, r.2.1)

/-- `extended_gcd` from `utils.rs`:
`fn extended_gcd(a: i64, b: i64) -> (i64, i64, i64)`, recursing on
`extended_gcd(b % a, a)` when `a != 0`.  Its intermediate arithmetic stays
within `i64` for the inputs reachable from this repository, so it is
modelled over `ℤ` directly. -/
def extended_gcd (a b : ℤ) : ℤ × ℤ × ℤ := egcdFuel (a.natAbs + 1) a b

/-- `modular_inverse` from `utils.rs`:
computes `extended_gcd(a as i64, m as i64)`, fails with
`SynthesisError::AssignmentMissing` when the returned gcd is not `1`, and
otherwise returns `((x % m + m) % m) as u64`.  When `m as i64 = 0` the
`x % m` remainder panics; the inner `x % m + m` addition wraps on `i64`
overflow (release-mode semantics). -/
def modular_inverse (a m : ℕ) : MRes :=
  let mi : ℤ := u64AsI64 m
  let r := extended_gcd (u64AsI64 a) mi
  if r.1 ≠ 1 then .err .assignmentMissing
  else if mi = 0 then .panic
  else .ok (i64AsU64 (Int.tmod (iwrap64 (Int.tmod r.2.1 mi + mi)) mi))

/-- Body of the `while exp > 0` loop of `modular_exponentiation` in
`utils.rs`, fuel-indexed.  The exponent is a `u64`, so 64 iterations always
exhaust it; `u64` multiplications wrap modulo `2^64` before the reduction
by `m` (release-mode semantics). -/
def expLoop : ℕ → ℕ → ℕ → ℕ → ℕ → ℕ
  | 0, result, _, _, _ => result
  | f + 1, result, base, exp, m =>
    if exp > 0 then
      expLoop f (if exp % 2 = 1 then result * base % 2 ^ 64 % m else result)
        (base * base % 2 ^ 64 % m) (exp / 2) m
    else result

/-- `modular_exponentiation` from `utils.rs`.  The initial `base % modulus`
panics when `modulus = 0`, modelled as `none`. -/
def modular_exponentiation (base exp modulus : ℕ) : Option ℕ :=
  if modulus = 0 then none
  else some (expLoop 64 1 (base % modulus) exp modulus)

/-- General (non-wrapping) fuel-indexed modular exponentiation, used below
to certify the primality of `blsR` by kernel computation. -/
def powModF : ℕ → ℕ → ℕ → ℕ → ℕ → ℕ
  | 0, result, _, _, _ => result
  | f + 1, result, base, exp, m =>
    if exp = 0 then result
    else powModF f (if exp % 2 = 1 then result * base % m else result) (base * base % m)
      (exp / 2) m

/-- An R1CS variable of `ark_relations`: the constant-one variable, a
public-input variable, or a witness variable (indexed in allocation
order). -/
inductive Var : Type where
  | one : Var
  | inp : ℕ → Var
  | wit : ℕ → Var
  deriving DecidableEq, Repr

/-- A linear combination: a list of (coefficient, variable) summands, as
built by the `lc!()` macro. -/
abbrev LC : Type := List (F × Var)

/-- One R1CS constraint `A · B = C` as recorded by `enforce_constraint`. -/
structure Constraint : Type where
  a : LC
  b : LC
  c : LC
  deriving DecidableEq, Repr

/-- A full variable assignment.  The constant variable `Var.one` always
evaluates to `1`; inputs and witnesses are assigned by index. -/
structure Assignment : Type where
  inp : ℕ → F
  wit : ℕ → F

/-- Value of a variable under an assignment. -/
def evalVar (asn : Assignment) : Var → F
  | .one => 1
  | .inp i => asn.inp i
  | .wit i => asn.wit i

/-- Value of a linear combination under an assignment. -/
def evalLC (asn : Assignment) (l : LC) : F :=
  (l.map fun t => t.1 * evalVar asn t.2).sum

/-- An assignment satisfies a constraint when `A·B = C` holds for it. -/
def satisfied (asn : Assignment) (c : Constraint) : Prop :=
  evalLC asn c.a * evalLC asn c.b = evalLC asn c.c

instance (asn : Assignment) (c : Constraint) : Decidable (satisfied asn c) := by
  unfold satisfied; infer_instance

/-- An assignment satisfies a list of constraints when it satisfies each. -/
def satisfiesAll (asn : Assignment) (l : List Constraint) : Prop :=
  ∀ c ∈ l, satisfied asn c

instance (asn : Assignment) (l : List Constraint) : Decidable (satisfiesAll asn l) := by
  unfold satisfiesAll; infer_instance

/-- Kind of an allocation event, used to record the order in which input
and witness variables are allocated. -/
inductive VarKind : Type where
  | inp : VarKind
  | wit : VarKind
  deriving DecidableEq, Repr

/-- The constraint-system container (`ConstraintSystemRef`): values of the
allocated inputs and witnesses, the emitted constraints, and the
allocation-order trace. -/
structure CS : Type where
  inputs : List F
  witnesses : List F
  constraints : List Constraint
  trace : List VarKind
  deriving DecidableEq, Repr

/-- The empty constraint system handed to `generate_constraints`. -/
def emptyCS : CS := ⟨[], [], [], []⟩

/-- `cs.new_input_variable(|| Ok(v))`. -/
def newInput (cs : CS) (v : F) : Var × CS :=
  (.inp cs.inputs.length,
    { cs with inputs := cs.inputs ++ [v], trace := cs.trace ++ [.inp] })

/-- `cs.new_witness_variable(|| Ok(v))`. -/
def newWitness (cs : CS) (v : F) : Var × CS :=
  (.wit cs.witnesses.length,
    { cs with witnesses := cs.witnesses ++ [v], trace := cs.trace ++ [.wit] })

/-- `cs.enforce_constraint(a, b, c)`. -/
def enforce (cs : CS) (a b c : LC) : CS :=
  { cs with constraints := cs.constraints ++ [⟨a, b, c⟩] }

/-- Outcome of `generate_constraints`: `Ok(())` with the final constraint
system, a propagated `SynthesisError` together with the state of the
(mutably shared) constraint system at the moment of failure, or a Rust
panic. -/
inductive Res : Type where
  | ok : CS → Res
  | err : SynthErr → CS → Res
  | panic : Res
  deriving DecidableEq, Repr

/-- The circuit struct of `circuit.rs`: public key `y`, message hash `h_x`,
signature `(r, s)`, and DSA domain parameters `(p, q, g)`, all field
elements. -/
structure DSAVerificationCircuit : Type where
  y : F
  h_x : F
  r : F
  s : F
  p : F
  q : F
  g : F

/-- `self.v.into_repr().as_ref()[0] as u64`: the lowest 64-bit limb of the
canonical big-integer representation of a field element. -/
def limb0 (x : F) : ℕ := x.val % 2 ^ 64

/-- `DSAVerificationCircuit::generate_constraints` from `circuit.rs`,
acting on an initial constraint system `cs`.  It first computes all
intermediate witness values by plain machine-integer arithmetic (reading
only the low 64-bit limb of each field element), aborting synthesis if `s`
has no inverse modulo `q`, then allocates the seven public inputs, the
witnesses, and emits the seventeen constraints in source order.  `u64`
multiplications wrap modulo `2^64`; the `%` reductions by `q_val` and
`p_val` are only reached on paths where those values are nonzero (the
inverse and the exponentiation fail first otherwise), so they are modelled
by total `Nat` reduction. -/
def generate_constraints (self : DSAVerificationCircuit) (cs : CS) : Res :=
  let s_val := limb0 self.s
  let q_val := limb0 self.q
  match modular_inverse s_val q_val with
  | .err e => .err e cs
  | .panic => .panic
  | .ok w_val =>
    let h_x_val := limb0 self.h_x
    let u1_val := h_x_val * w_val % 2 ^ 64 % q_val
    let r_val := limb0 self.r
    let u2_val := r_val * w_val % 2 ^ 64 % q_val
    let g_val := limb0 self.g
    let p_val := limb0 self.p
    match modular_exponentiation g_val u1_val p_val with
    | none => .panic
    | some g_u1_val =>
      let y_val := limb0 self.y
      match modular_exponentiation y_val u2_val p_val with
      | none => .panic
      | some y_u2_val =>
        let v_val := g_u1_val * y_u2_val % 2 ^ 64 % p_val
        let v_mod_q_val := v_val % q_val
        let r_mod_q_val := r_val % q_val
        let (_y_var, cs) := newInput cs self.y
        let (h_x_var, cs) := newInput cs self.h_x
        let (r_var, cs) := newInput cs self.r
        let (s_var, cs) := newInput cs self.s
        let (p_var, cs) := newInput cs self.p
        let (q_var, cs) := newInput cs self.q
        let (_g_var, cs) := newInput cs self.g
        let (w_var, cs) := newWitness cs (w_val : F)
        let (u1_var, cs) := newWitness cs (u1_val : F)
        let (u2_var, cs) := newWitness cs (u2_val : F)
        let (g_u1_var, cs) := newWitness cs (g_u1_val : F)
        let (y_u2_var, cs) := newWitness cs (y_u2_val : F)
        let (v_var, cs) := newWitness cs (v_val : F)
        let (v_mod_q_var, cs) := newWitness cs (v_mod_q_val : F)
        let (r_mod_q_var, cs) := newWitness cs (r_mod_q_val : F)
        let one : F := 1
        let zero : F := 0
        -- Constraint: w * s = 1 mod q
        let (ws_var, cs) := newWitness cs ((w_val * s_val % 2 ^ 64 : ℕ) : F)
        let (ws_remainder_var, cs) := newWitness cs ((w_val * s_val % 2 ^ 64 % q_val : ℕ) : F)
        let (ws_quotient_var, cs) := newWitness cs ((w_val * s_val % 2 ^ 64 / q_val : ℕ) : F)
        let (q_times_ws_quotient_var, cs) :=
          newWitness cs ((q_val * (w_val * s_val % 2 ^ 64 / q_val) % 2 ^ 64 : ℕ) : F)
        let cs := enforce cs [(1, w_var)] [(1, s_var)] [(1, ws_var)]
        let cs := enforce cs [(1, q_var)] [(1, ws_quotient_var)] [(1, q_times_ws_quotient_var)]
        let cs := enforce cs [(1, ws_var), (-1, q_times_ws_quotient_var)] [(one, .one)]
          [(1, ws_remainder_var)]
        let cs := enforce cs [(1, ws_remainder_var), (-1, .one)] [(one, .one)] [(zero, .one)]
        -- Constraint: u1 = h_x * w mod q
        let (u1_product_var, cs) := newWitness cs ((h_x_val * w_val % 2 ^ 64 : ℕ) : F)
        let (u1_remainder_var, cs) := newWitness cs ((h_x_val * w_val % 2 ^ 64 % q_val : ℕ) : F)
        let (u1_quotient_var, cs) := newWitness cs ((h_x_val * w_val % 2 ^ 64 / q_val : ℕ) : F)
        let (q_times_u1_quotient_var, cs) :=
          newWitness cs ((q_val * (h_x_val * w_val % 2 ^ 64 / q_val) % 2 ^ 64 : ℕ) : F)
        let cs := enforce cs [(1, h_x_var)] [(1, w_var)] [(1, u1_product_var)]
        let cs := enforce cs [(1, q_var)] [(1, u1_quotient_var)] [(1, q_times_u1_quotient_var)]
        let cs := enforce cs [(1, u1_product_var), (-1, q_times_u1_quotient_var)] [(one, .one)]
          [(1, u1_remainder_var)]
        let cs := enforce cs [(1, u1_remainder_var), (-1, u1_var)] [(one, .one)] [(zero, .one)]
        -- Constraint: u2 = r * w mod q
        let (u2_product_var, cs) := newWitness cs ((r_val * w_val % 2 ^ 64 : ℕ) : F)
        let (u2_remainder_var, cs) := newWitness cs ((r_val * w_val % 2 ^ 64 % q_val : ℕ) : F)
        let (u2_quotient_var, cs) := newWitness cs ((r_val * w_val % 2 ^ 64 / q_val : ℕ) : F)
        let (q_times_u2_quotient_var, cs) :=
          newWitness cs ((q_val * (r_val * w_val % 2 ^ 64 / q_val) % 2 ^ 64 : ℕ) : F)
        let cs := enforce cs [(1, r_var)] [(1, w_var)] [(1, u2_product_var)]
        let cs := enforce cs [(1, q_var)] [(1, u2_quotient_var)] [(1, q_times_u2_quotient_var)]
        let cs := enforce cs [(1, u2_product_var), (-1, q_times_u2_quotient_var)] [(one, .one)]
          [(1, u2_remainder_var)]
        let cs := enforce cs [(1, u2_remainder_var), (-1, u2_var)] [(one, .one)] [(zero, .one)]
        -- Constraint: v = g_u1 * y_u2 mod p
        let (v_product_var, cs) := newWitness cs ((g_u1_val * y_u2_val % 2 ^ 64 : ℕ) : F)
        let (v_remainder_var, cs) := newWitness cs ((g_u1_val * y_u2_val % 2 ^ 64 % p_val : ℕ) : F)
        let (v_quotient_var, cs) := newWitness cs ((g_u1_val * y_u2_val % 2 ^ 64 / p_val : ℕ) : F)
        let (p_times_v_quotient_var, cs) :=
          newWitness cs ((p_val * (g_u1_val * y_u2_val % 2 ^ 64 / p_val) % 2 ^ 64 : ℕ) : F)
        let cs := enforce cs [(1, g_u1_var)] [(1, y_u2_var)] [(1, v_product_var)]
        let cs := enforce cs [(1, p_var)] [(1, v_quotient_var)] [(1, p_times_v_quotient_var)]
        let cs := enforce cs [(1, v_product_var), (-1, p_times_v_quotient_var)] [(one, .one)]
          [(1, v_remainder_var)]
        let cs := enforce cs [(1, v_remainder_var), (-1, v_var)] [(one, .one)] [(zero, .one)]
        -- Constraint: v_mod_q == r_mod_q
        let cs := enforce cs [(1, v_mod_q_var), (-1, r_mod_q_var)] [(one, .one)] [(zero, .one)]
        .ok cs

/-- The magnitude of a truncated remainder is the remainder of the
magnitudes. -/
lemma natAbs_tmod (m n : ℤ) : (Int.tmod m n).natAbs = m.natAbs % n.natAbs := by
  cases m <;> cases n <;> simp only [Int.tmod, Int.natAbs_neg] <;> rfl

/-- `egcdFuel` does not depend on the fuel once the fuel exceeds the
magnitude of the first argument. -/
lemma egcdFuel_congr : ∀ f f' : ℕ, ∀ a b : ℤ, a.natAbs < f → a.natAbs < f' →
    egcdFuel f a b = egcdFuel f' a b := by
  intro f
  induction f with
  | zero => intro f' a b h; omega
  | succ f ih =>
    intro f' a b h h'
    cases f' with
    | zero => omega
    | succ f' =>
      by_cases ha : a = 0
      · simp [egcdFuel, ha]
      · have hlt : (Int.tmod b a).natAbs < a.natAbs := by
          rw [natAbs_tmod]
          exact Nat.mod_lt _ (Int.natAbs_pos.mpr ha)
        have h1 : (Int.tmod b a).natAbs < f := by omega
        have h2 : (Int.tmod b a).natAbs < f' := by omega
        simp only [egcdFuel, ha, if_false]
        rw [ih f' (Int.tmod b a) a h1 h2]

/-- The recursive equation of the source `extended_gcd`. -/
lemma extended_gcd_unfold (a b : ℤ) :
    extended_gcd a b =
      if a = 0 then (b, 0, 1)
      else
        let r := extended_gcd (Int.tmod b a) a
        (r.1, r.2.2 - Int.tdiv b a * r.2.1, r.2.1) := by
  by_cases ha : a = 0
  · simp [extended_gcd, ha, egcdFuel]
  · have hlt : (Int.tmod b a).natAbs < a.natAbs := by
      rw [natAbs_tmod]
      exact Nat.mod_lt _ (Int.natAbs_pos.mpr ha)
    show egcdFuel (a.natAbs + 1) a b = _
    rw [egcdFuel]
    simp only [ha, if_false]
    rw [egcdFuel_congr a.natAbs ((Int.tmod b a).natAbs + 1) (Int.tmod b a) a (by omega) (by omega)]
    rfl

/-- On natural inputs, `extended_gcd` returns the gcd as its first
component together with Bézout coefficients. -/
lemma extended_gcd_nat (a : ℕ) : ∀ b : ℕ,
    (extended_gcd (a : ℤ) (b : ℤ)).1 = Nat.gcd a b ∧
      (a : ℤ) * (extended_gcd (a : ℤ) (b : ℤ)).2.1 +
        (b : ℤ) * (extended_gcd (a : ℤ) (b : ℤ)).2.2 = Nat.gcd a b := by
  induction a using Nat.strong_induction_on with
  | _ a ih =>
    intro b
    rcases Nat.eq_zero_or_pos a with ha | ha
    · subst ha
      rw [extended_gcd_unfold]
      simp
    · have ha0 : (a : ℤ) ≠ 0 := by exact_mod_cast Nat.pos_iff_ne_zero.mp ha
      rw [extended_gcd_unfold]
      simp only [ha0, if_false]
      have hmod : Int.tmod (b : ℤ) (a : ℤ) = ((b % a : ℕ) : ℤ) := (Int.ofNat_tmod b a).symm
      have hdiv : Int.tdiv (b : ℤ) (a : ℤ) = ((b / a : ℕ) : ℤ) := (Int.ofNat_tdiv b a).symm
      rw [hmod, hdiv]
      obtain ⟨ih1, ih2⟩ := ih (b % a) (Nat.mod_lt b ha) a
      refine ⟨?_, ?_⟩
      · rw [ih1, Nat.gcd_rec a b]
      · rw [Nat.gcd_rec a b]
        have hb : (b : ℤ) = (a : ℤ) * ((b / a : ℕ) : ℤ) + ((b % a : ℕ) : ℤ) := by
          exact_mod_cast (Nat.div_add_mod b a).symm
        rw [hb]
        ring_nf
        ring_nf at ih2
        linarith [ih2]

/-- A truncated remainder by a positive modulus lies in `(-m, m)`. -/
lemma tmod_range {x m : ℤ} (hm : 0 < m) : -m < Int.tmod x m ∧ Int.tmod x m < m := by
  have h1 : (Int.tmod x m).natAbs < m.natAbs := by
    rw [natAbs_tmod]
    exact Nat.mod_lt _ (Int.natAbs_pos.mpr hm.ne')
  omega

/-- The modulus divides the difference between a value and its truncated
remainder. -/
lemma dvd_sub_tmod (x m : ℤ) : m ∣ x - Int.tmod x m := by
  have h := Int.tmod_add_tdiv x m
  exact ⟨x.tdiv m, by omega⟩

/-- `iwrap64` is the identity on the `i64` range. -/
lemma iwrap64_eq_self {z : ℤ} (h1 : -2 ^ 63 ≤ z) (h2 : z < 2 ^ 63) : iwrap64 z = z := by
  unfold iwrap64
  omega

/-- For `u64` values that are exactly representable in `i64`, the `as i64`
cast is the identity. -/
lemma u64AsI64_of_lt {x : ℕ} (h : x < 2 ^ 63) : u64AsI64 x = (x : ℤ) := by
  simp only [u64AsI64, if_pos h]

/-- When the gcd of `a` and `m` (both below `2^63`, so the `as i64` casts
are value-preserving) is not `1`, `modular_inverse` fails with
`AssignmentMissing`. -/
lemma modular_inverse_err {a m : ℕ} (ha : a < 2 ^ 63) (hm : m < 2 ^ 63)
    (hg : Nat.gcd a m ≠ 1) : modular_inverse a m = .err .assignmentMissing := by
  have hg1 := (extended_gcd_nat a m).1
  have : (extended_gcd (a : ℤ) (m : ℤ)).1 ≠ 1 := by
    rw [hg1]
    exact_mod_cast hg
  simp only [modular_inverse, u64AsI64_of_lt ha, u64AsI64_of_lt hm]
  simp [this]

/-- When `gcd a m = 1`, `1 ≤ m < 2^62` and `a < 2^63`, `modular_inverse`
returns a canonical inverse of `a` modulo `m`: the intermediate
`x % m + m` stays within `i64`, so no wrap occurs. -/
lemma modular_inverse_ok {a m : ℕ} (ha : a < 2 ^ 63) (hm1 : 1 ≤ m) (hm : m < 2 ^ 62)
    (hg : Nat.gcd a m = 1) :
    ∃ w : ℕ, modular_inverse a m = .ok w ∧ w < m ∧ a * w % m = 1 % m := by
  obtain ⟨hg1, hbez⟩ := extended_gcd_nat a m
  have hm63 : m < 2 ^ 63 := by omega
  have hmpos : (0 : ℤ) < (m : ℤ) := by exact_mod_cast hm1
  set x : ℤ := (extended_gcd (a : ℤ) (m : ℤ)).2.1 with hxdef
  set y : ℤ := (extended_gcd (a : ℤ) (m : ℤ)).2.2 with hydef
  have hx1 : (a : ℤ) * x + (m : ℤ) * y = 1 := by
    rw [hbez, hg]
    norm_num
  have hone : (extended_gcd (a : ℤ) (m : ℤ)).1 = 1 := by
    rw [hg1, hg]
    norm_num
  set t : ℤ := Int.tmod x (m : ℤ) with htdef
  obtain ⟨ht1, ht2⟩ := tmod_range (x := x) hmpos
  have hsum1 : (0 : ℤ) < t + m := by omega
  have hsum2 : t + m < 2 ^ 63 := by
    have : (m : ℤ) < 2 ^ 62 := by exact_mod_cast hm
    omega
  have hwrap : iwrap64 (t + m) = t + m := iwrap64_eq_self (by omega) hsum2
  set wi : ℤ := Int.tmod (t + m) (m : ℤ) with hwidef
  have hwi1 : 0 ≤ wi := Int.tmod_nonneg _ (by omega)
  have hwi2 : wi < m := Int.tmod_lt_of_pos _ hmpos
  have hdvd1 : (m : ℤ) ∣ x - t := dvd_sub_tmod x (m : ℤ)
  have hdvd2 : (m : ℤ) ∣ t + m - wi := dvd_sub_tmod (t + m) (m : ℤ)
  have hdvdxw : (m : ℤ) ∣ x - wi := by
    have : x - wi = (x - t) + (t + m - wi) + m * (-1) := by ring
    rw [this]
    exact dvd_add (dvd_add hdvd1 hdvd2) (Dvd.intro _ rfl)
  have hcong : (m : ℤ) ∣ (a : ℤ) * wi - 1 := by
    have h1 : (a : ℤ) * wi - 1 = -((a : ℤ) * (x - wi)) - (m : ℤ) * y := by
      linear_combination hx1
    rw [h1]
    exact dvd_sub (dvd_neg.mpr (hdvdxw.mul_left _)) (Dvd.intro _ rfl)
  refine ⟨wi.toNat, ?_, by omega, ?_⟩
  · simp only [modular_inverse, u64AsI64_of_lt ha, u64AsI64_of_lt hm63]
    rw [← hxdef]
    simp only [hone, hmpos.ne', ne_eq, not_true_eq_false, if_false, ite_false,
      not_false_eq_true, if_true]
    rw [← htdef, hwrap, ← hwidef]
    simp only [i64AsU64]
    congr 1
    omega
  · have hcast : ((a * wi.toNat % m : ℕ) : ℤ) = ((1 % m : ℕ) : ℤ) := by
      push_cast
      rw [Int.toNat_of_nonneg hwi1]
      show ((a : ℤ) * wi) % (m : ℤ) = 1 % (m : ℤ)
      refine Int.ModEq.symm (Int.modEq_iff_dvd.mpr ?_)
      simpa using hcong
    exact_mod_cast hcast

/-- Correctness of the fuel-indexed modular exponentiation: with enough
fuel for the exponent it computes `r * b ^ e % m`. -/
lemma powModF_correct : ∀ f e r b m : ℕ, 0 < m → r < m → e < 2 ^ f →
    powModF f r b e m = r * b ^ e % m := by
  intro f
  induction f with
  | zero =>
    intro e r b m hm hr he
    have : e = 0 := by omega
    subst this
    simp [powModF, Nat.mod_eq_of_lt hr]
  | succ f ih =>
    intro e r b m hm hr he
    by_cases he0 : e = 0
    · subst he0
      simp [powModF, Nat.mod_eq_of_lt hr]
    · have key : ∀ X Y : ℕ, X % m * Y % m = X * Y % m := by
        intro X Y
        rw [Nat.mul_mod, Nat.mod_mod_of_dvd _ dvd_rfl, ← Nat.mul_mod]
      have key2 : ∀ X Y k : ℕ, X * (Y % m) ^ k % m = X * Y ^ k % m := by
        intro X Y k
        rw [Nat.mul_mod, ← Nat.pow_mod, ← Nat.mul_mod]
      have hps : (2 : ℕ) ^ (f + 1) = 2 * 2 ^ f := by ring
      have he2 : e / 2 < 2 ^ f := Nat.div_lt_of_lt_mul (by omega)
      by_cases hpar : e % 2 = 1
      · have hstep : powModF (f + 1) r b e m = powModF f (r * b % m) (b * b % m) (e / 2) m := by
          simp [powModF, he0, hpar]
        rw [hstep, ih (e / 2) _ _ m hm (Nat.mod_lt _ hm) he2, key, key2]
        congr 1
        have hee : e = 2 * (e / 2) + 1 := by omega
        conv_rhs => rw [hee]
        generalize e / 2 = k
        ring
      · have hstep : powModF (f + 1) r b e m = powModF f r (b * b % m) (e / 2) m := by
          simp [powModF, he0, hpar]
        rw [hstep, ih (e / 2) _ _ m hm hr he2, key2]
        congr 1
        have hee : e = 2 * (e / 2) := by omega
        conv_rhs => rw [hee]
        generalize e / 2 = k
        ring

/-- Powers of `7` in the circuit field, reduced to a kernel-computable
`powModF` evaluation. -/
lemma zmod7pow (k : ℕ) (hk : k < 2 ^ 256) :
    (7 : ZMod blsR) ^ k = 1 ↔ powModF 256 1 7 k blsR = 1 := by
  have hm : 0 < blsR := by norm_num [blsR]
  have h1 : powModF 256 1 7 k blsR = 7 ^ k % blsR := by
    rw [powModF_correct 256 k 1 7 blsR hm (by norm_num [blsR]) hk, one_mul]
  have h2 : (7 : ZMod blsR) ^ k = ((7 ^ k : ℕ) : ZMod blsR) := by
    push_cast
    ring
  rw [h2, show (1 : ZMod blsR) = ((1 : ℕ) : ZMod blsR) by norm_cast,
    ZMod.natCast_eq_natCast_iff', h1, Nat.mod_eq_of_lt (show 1 < blsR by norm_num [blsR])]

/-- Powers of a natural-number base in `ZMod p`, reduced to a
kernel-computable `powModF` evaluation with 64 bits of fuel. -/
lemma castPow_eq_one_iff (p a k : ℕ) (hp : 1 < p) (hk : k < 2 ^ 64) :
    ((a : ℕ) : ZMod p) ^ k = 1 ↔ powModF 64 1 a k p = 1 := by
  have h1 : powModF 64 1 a k p = a ^ k % p := by
    rw [powModF_correct 64 k 1 a p (by omega) hp hk, one_mul]
  rw [show ((a : ℕ) : ZMod p) ^ k = ((a ^ k : ℕ) : ZMod p) by push_cast; ring,
    show (1 : ZMod p) = ((1 : ℕ) : ZMod p) by norm_cast,
    ZMod.natCast_eq_natCast_iff', h1, Nat.mod_eq_of_lt hp]

/-- A prime dividing `X * p ^ k` with `p` prime divides `X` or equals
`p`. -/
lemma prime_dvd_mul_pow {q X p k : ℕ} (hq : Nat.Prime q) (hp : Nat.Prime p)
    (h : q ∣ X * p ^ k) : q ∣ X ∨ q = p := by
  rcases (Nat.Prime.dvd_mul hq).mp h with h1 | h1
  · exact Or.inl h1
  · exact Or.inr ((Nat.prime_dvd_prime_iff_eq hq hp).mp (hq.dvd_of_dvd_pow h1))

/-- A prime dividing `X * p` with `p` prime divides `X` or equals `p`. -/
lemma prime_dvd_mul_fac {q X p : ℕ} (hq : Nat.Prime q) (hp : Nat.Prime p)
    (h : q ∣ X * p) : q ∣ X ∨ q = p :=
  prime_dvd_mul_pow hq hp (k := 1) (by simpa using h)

/-- Lucas certificate for the factor 63690073 of `blsR - 1` (keeping the
primality proof term shallow), with witness 7. -/
lemma prime_63690073 : Nat.Prime 63690073 := by
  have hfac : (63690073 : ℕ) - 1 = 2 ^ 3 * 3 * 2653753 := by norm_num
  refine lucas_primality _ ((7 : ℕ) : ZMod 63690073) ?_ ?_
  · rw [castPow_eq_one_iff _ _ _ (by norm_num) (by norm_num)]
    decide
  · intro q hq hdvd
    rw [hfac] at hdvd
    rcases prime_dvd_mul_fac hq (by norm_num) hdvd with h | rfl
    on_goal 1 => rcases prime_dvd_mul_fac hq (by norm_num) h with h | rfl
    on_goal 1 =>
      have h2 : q = 2 := (Nat.prime_dvd_prime_iff_eq hq (by norm_num)).mp (hq.dvd_of_dvd_pow h)
      subst h2
    all_goals intro hcontra
    all_goals rw [castPow_eq_one_iff _ _ _ (by norm_num) (by norm_num)] at hcontra
    all_goals revert hcontra
    all_goals decide

/-- Lucas certificate for the factor 254760293 of `blsR - 1`, with witness
2 and the prime factorization 254760293 - 1 = 2^2 * 63690073. -/
lemma prime_254760293 : Nat.Prime 254760293 := by
  have hfac : (254760293 : ℕ) - 1 = 2 ^ 2 * 63690073 := by norm_num
  refine lucas_primality _ ((2 : ℕ) : ZMod 254760293) ?_ ?_
  · rw [castPow_eq_one_iff _ _ _ (by norm_num) (by norm_num)]
    decide
  · intro q hq hdvd
    rw [hfac] at hdvd
    rcases prime_dvd_mul_fac hq prime_63690073 hdvd with h | rfl
    on_goal 1 =>
      have h2 : q = 2 := (Nat.prime_dvd_prime_iff_eq hq (by norm_num)).mp (hq.dvd_of_dvd_pow h)
      subst h2
    all_goals intro hcontra
    all_goals rw [castPow_eq_one_iff _ _ _ (by norm_num) (by norm_num)] at hcontra
    all_goals revert hcontra
    all_goals decide

/-- Lucas certificate for the factor 52437899 of `blsR - 1`, with witness
2 and the prime factorization 52437899 - 1 = 2 * 43 * 609743. -/
lemma prime_52437899 : Nat.Prime 52437899 := by
  have hfac : (52437899 : ℕ) - 1 = 2 * 43 * 609743 := by norm_num
  refine lucas_primality _ ((2 : ℕ) : ZMod 52437899) ?_ ?_
  · rw [castPow_eq_one_iff _ _ _ (by norm_num) (by norm_num)]
    decide
  · intro q hq hdvd
    rw [hfac] at hdvd
    rcases prime_dvd_mul_fac hq (by norm_num) hdvd with h | rfl
    on_goal 1 => rcases prime_dvd_mul_fac hq (by norm_num) h with h | rfl
    on_goal 1 =>
      have h2 : q = 2 := (Nat.prime_dvd_prime_iff_eq hq (by norm_num)).mp h
      subst h2
    all_goals intro hcontra
    all_goals rw [castPow_eq_one_iff _ _ _ (by norm_num) (by norm_num)] at hcontra
    all_goals revert hcontra
    all_goals decide

set_option maxRecDepth 4096 in
/-- The field order `blsR` is prime: Lucas primality certificate with
witness `7` (the canonical generator of the BLS12-381 scalar field),
using the known factorization of `blsR - 1`. -/
theorem blsR_prime : Nat.Prime blsR := by
  have hfac : blsR - 1 = 2 ^ 32 * 3 * 11 * 19 * 10177 * 125527 * 859267 * 906349 ^ 2 *
      2508409 * 2529403 * 52437899 * 254760293 ^ 2 := by
    norm_num [blsR]
  refine lucas_primality blsR 7 ?_ ?_
  · rw [zmod7pow _ (by norm_num [blsR])]
    decide
  · intro q hq hdvd
    have hstepP : ∀ X p k : ℕ, Nat.Prime p → q ∣ X * p ^ k → q ∣ X ∨ q = p := by
      intro X p k hp h
      rcases (Nat.Prime.dvd_mul hq).mp h with h1 | h1
      · exact Or.inl h1
      · exact Or.inr ((Nat.prime_dvd_prime_iff_eq hq hp).mp (hq.dvd_of_dvd_pow h1))
    have hstep : ∀ X p : ℕ, Nat.Prime p → q ∣ X * p → q ∣ X ∨ q = p := by
      intro X p hp h
      exact hstepP X p 1 hp (by simpa using h)
    rw [hfac] at hdvd
    rcases hstepP _ _ _ prime_254760293 hdvd with h | rfl
    on_goal 1 => rcases hstep _ _ prime_52437899 h with h | rfl
    on_goal 1 => rcases hstep _ _ (by norm_num) h with h | rfl
    on_goal 1 => rcases hstep _ _ (by norm_num) h with h | rfl
    on_goal 1 => rcases hstepP _ _ _ (by norm_num) h with h | rfl
    on_goal 1 => rcases hstep _ _ (by norm_num) h with h | rfl
    on_goal 1 => rcases hstep _ _ (by norm_num) h with h | rfl
    on_goal 1 => rcases hstep _ _ (by norm_num) h with h | rfl
    on_goal 1 => rcases hstep _ _ (by norm_num) h with h | rfl
    on_goal 1 => rcases hstep _ _ (by norm_num) h with h | rfl
    on_goal 1 => rcases hstep _ _ (by norm_num) h with h | rfl
    on_goal 1 =>
      have h2 : q = 2 := (Nat.prime_dvd_prime_iff_eq hq (by norm_num)).mp (hq.dvd_of_dvd_pow h)
      subst h2
    all_goals intro hcontra
    all_goals rw [zmod7pow _ (by norm_num [blsR])] at hcontra
    all_goals revert hcontra
    all_goals decide

instance : Fact (Nat.Prime blsR) := ⟨blsR_prime⟩

/-- Constraints emitted by the first modular-reduction gadget invocation
(`w * s = 1 mod q`): the multiplication producing the dividend, then the
three reduction constraints.  Input indices: y=0, h_x=1, r=2, s=3, p=4,
q=5, g=6; witness indices: w=0, u1=1, u2=2, g_u1=3, y_u2=4, v=5,
v_mod_q=6, r_mod_q=7, then four scratch witnesses per gadget. -/
def gadget1Constraints : List Constraint :=
  [⟨[(1, .wit 0)], [(1, .inp 3)], [(1, .wit 8)]⟩,
   ⟨[(1, .inp 5)], [(1, .wit 10)], [(1, .wit 11)]⟩,
   ⟨[(1, .wit 8), (-1, .wit 11)], [(1, .one)], [(1, .wit 9)]⟩,
   ⟨[(1, .wit 9), (-1, .one)], [(1, .one)], [(0, .one)]⟩]

/-- Constraints emitted by the second gadget invocation
(`u1 = h_x * w mod q`). -/
def gadget2Constraints : List Constraint :=
  [⟨[(1, .inp 1)], [(1, .wit 0)], [(1, .wit 12)]⟩,
   ⟨[(1, .inp 5)], [(1, .wit 14)], [(1, .wit 15)]⟩,
   ⟨[(1, .wit 12), (-1, .wit 15)], [(1, .one)], [(1, .wit 13)]⟩,
   ⟨[(1, .wit 13), (-1, .wit 1)], [(1, .one)], [(0, .one)]⟩]

/-- Constraints emitted by the third gadget invocation
(`u2 = r * w mod q`). -/
def gadget3Constraints : List Constraint :=
  [⟨[(1, .inp 2)], [(1, .wit 0)], [(1, .wit 16)]⟩,
   ⟨[(1, .inp 5)], [(1, .wit 18)], [(1, .wit 19)]⟩,
   ⟨[(1, .wit 16), (-1, .wit 19)], [(1, .one)], [(1, .wit 17)]⟩,
   ⟨[(1, .wit 17), (-1, .wit 2)], [(1, .one)], [(0, .one)]⟩]

/-- Constraints emitted by the fourth gadget invocation
(`v = g_u1 * y_u2 mod p`). -/
def gadget4Constraints : List Constraint :=
  [⟨[(1, .wit 3)], [(1, .wit 4)], [(1, .wit 20)]⟩,
   ⟨[(1, .inp 4)], [(1, .wit 22)], [(1, .wit 23)]⟩,
   ⟨[(1, .wit 20), (-1, .wit 23)], [(1, .one)], [(1, .wit 21)]⟩,
   ⟨[(1, .wit 21), (-1, .wit 5)], [(1, .one)], [(0, .one)]⟩]

/-- The final equality constraint `(v_mod_q - r_mod_q) * 1 = 0`. -/
def finalConstraint : Constraint :=
  ⟨[(1, .wit 6), (-1, .wit 7)], [(1, .one)], [(0, .one)]⟩

/-- The full constraint list emitted by a successful synthesis, in source
order. -/
def circuitConstraints : List Constraint :=
  gadget1Constraints ++ gadget2Constraints ++ gadget3Constraints ++ gadget4Constraints ++
    [finalConstraint]

/-- The public-input vector the process entry point (`main.rs`) passes to
`Groth16::verify`, in source order. -/
def mainPublicInputs (c : DSAVerificationCircuit) : List F :=
  [c.y, c.h_x, c.r, c.s, c.p, c.q, c.g]

/-- The assignment induced by the values stored in a constraint system:
each input and witness variable takes the value it was allocated with. -/
def assignmentOf (cs : CS) : Assignment :=
  ⟨fun i => cs.inputs.getD i 0, fun i => cs.witnesses.getD i 0⟩

/-- Whether a variable occurs in a linear combination. -/
def occursLC (v : Var) (lc : LC) : Prop := ∃ t ∈ lc, t.2 = v

instance (v : Var) (lc : LC) : Decidable (occursLC v lc) := by
  unfold occursLC; infer_instance

/-- Whether a variable is mentioned anywhere in a constraint. -/
def mentions (c : Constraint) (v : Var) : Prop :=
  occursLC v c.a ∨ occursLC v c.b ∨ occursLC v c.c

instance (c : Constraint) (v : Var) : Decidable (mentions c v) := by
  unfold mentions; infer_instance

/-- The twenty-four witness values allocated by a successful synthesis, in
allocation order, given the computed inverse `w_val` and exponentiation
results `g_u1_val`, `y_u2_val`. -/
def witnessList (self : DSAVerificationCircuit) (w_val g_u1_val y_u2_val : ℕ) : List F :=
  [(w_val : F),
   ((limb0 self.h_x * w_val % 2 ^ 64 % limb0 self.q : ℕ) : F),
   ((limb0 self.r * w_val % 2 ^ 64 % limb0 self.q : ℕ) : F),
   (g_u1_val : F),
   (y_u2_val : F),
   ((g_u1_val * y_u2_val % 2 ^ 64 % limb0 self.p : ℕ) : F),
   ((g_u1_val * y_u2_val % 2 ^ 64 % limb0 self.p % limb0 self.q : ℕ) : F),
   ((limb0 self.r % limb0 self.q : ℕ) : F),
   ((w_val * limb0 self.s % 2 ^ 64 : ℕ) : F),
   ((w_val * limb0 self.s % 2 ^ 64 % limb0 self.q : ℕ) : F),
   ((w_val * limb0 self.s % 2 ^ 64 / limb0 self.q : ℕ) : F),
   ((limb0 self.q * (w_val * limb0 self.s % 2 ^ 64 / limb0 self.q) % 2 ^ 64 : ℕ) : F),
   ((limb0 self.h_x * w_val % 2 ^ 64 : ℕ) : F),
   ((limb0 self.h_x * w_val % 2 ^ 64 % limb0 self.q : ℕ) : F),
   ((limb0 self.h_x * w_val % 2 ^ 64 / limb0 self.q : ℕ) : F),
   ((limb0 self.q * (limb0 self.h_x * w_val % 2 ^ 64 / limb0 self.q) % 2 ^ 64 : ℕ) : F),
   ((limb0 self.r * w_val % 2 ^ 64 : ℕ) : F),
   ((limb0 self.r * w_val % 2 ^ 64 % limb0 self.q : ℕ) : F),
   ((limb0 self.r * w_val % 2 ^ 64 / limb0 self.q : ℕ) : F),
   ((limb0 self.q * (limb0 self.r * w_val % 2 ^ 64 / limb0 self.q) % 2 ^ 64 : ℕ) : F),
   ((g_u1_val * y_u2_val % 2 ^ 64 : ℕ) : F),
   ((g_u1_val * y_u2_val % 2 ^ 64 % limb0 self.p : ℕ) : F),
   ((g_u1_val * y_u2_val % 2 ^ 64 / limb0 self.p : ℕ) : F),
   ((limb0 self.p * (g_u1_val * y_u2_val % 2 ^ 64 / limb0 self.p) % 2 ^ 64 : ℕ) : F)]

set_option maxRecDepth 4096 in
/-- Normal form of `generate_constraints` on the empty initial system: the
witness computation decides the outcome, and on success the final system
is the explicit record with the seven inputs, the twenty-four witnesses
and the fixed constraint list. -/
lemma generate_constraints_spec (self : DSAVerificationCircuit) :
    generate_constraints self emptyCS =
      match modular_inverse (limb0 self.s) (limb0 self.q) with
      | .err e => .err e emptyCS
      | .panic => .panic
      | .ok w_val =>
        match modular_exponentiation (limb0 self.g)
            (limb0 self.h_x * w_val % 2 ^ 64 % limb0 self.q) (limb0 self.p) with
        | none => .panic
        | some g_u1_val =>
          match modular_exponentiation (limb0 self.y)
              (limb0 self.r * w_val % 2 ^ 64 % limb0 self.q) (limb0 self.p) with
          | none => .panic
          | some y_u2_val =>
            .ok ⟨mainPublicInputs self, witnessList self w_val g_u1_val y_u2_val,
              circuitConstraints,
              List.replicate 7 .inp ++ List.replicate 24 .wit⟩ := by
  simp only [generate_constraints, newInput, newWitness, enforce, emptyCS, witnessList,
    mainPublicInputs, circuitConstraints, gadget1Constraints, gadget2Constraints,
    gadget3Constraints, gadget4Constraints, finalConstraint, List.length_nil, List.length_cons,
    List.nil_append, List.cons_append, List.append_nil, List.replicate]

/-- If the modular-inverse computation fails, synthesis propagates the
error before touching the constraint system, whatever its initial state. -/
lemma generate_constraints_err_of_mi (self : DSAVerificationCircuit) (cs0 : CS) (e : SynthErr)
    (h : modular_inverse (limb0 self.s) (limb0 self.q) = .err e) :
    generate_constraints self cs0 = .err e cs0 := by
  unfold generate_constraints
  dsimp only
  rw [h]

/-- If the modular-inverse computation panics, so does synthesis. -/
lemma generate_constraints_panic_of_mi (self : DSAVerificationCircuit) (cs0 : CS)
    (h : modular_inverse (limb0 self.s) (limb0 self.q) = .panic) :
    generate_constraints self cs0 = .panic := by
  unfold generate_constraints
  dsimp only
  rw [h]

/-- If the inverse succeeds but the first exponentiation panics (zero
modulus `p`), synthesis panics. -/
lemma generate_constraints_panic_of_exp (self : DSAVerificationCircuit) (cs0 : CS) (w_val : ℕ)
    (hmi : modular_inverse (limb0 self.s) (limb0 self.q) = .ok w_val)
    (hg : modular_exponentiation (limb0 self.g)
      (limb0 self.h_x * w_val % 2 ^ 64 % limb0 self.q) (limb0 self.p) = none) :
    generate_constraints self cs0 = .panic := by
  unfold generate_constraints
  dsimp only
  rw [hmi]
  dsimp only
  rw [hg]

/-- Elimination form for a successful synthesis on the empty system: it
yields the inverse and exponentiation witnesses, and the final system is
the explicit record. -/
lemma generate_constraints_ok_elim (self : DSAVerificationCircuit) (cs : CS)
    (h : generate_constraints self emptyCS = .ok cs) :
    ∃ w_val g_u1_val y_u2_val : ℕ,
      modular_inverse (limb0 self.s) (limb0 self.q) = .ok w_val ∧
        modular_exponentiation (limb0 self.g)
          (limb0 self.h_x * w_val % 2 ^ 64 % limb0 self.q) (limb0 self.p) = some g_u1_val ∧
        modular_exponentiation (limb0 self.y)
          (limb0 self.r * w_val % 2 ^ 64 % limb0 self.q) (limb0 self.p) = some y_u2_val ∧
        cs = ⟨mainPublicInputs self, witnessList self w_val g_u1_val y_u2_val,
          circuitConstraints, List.replicate 7 .inp ++ List.replicate 24 .wit⟩ := by
  rw [generate_constraints_spec] at h
  rcases hmi : modular_inverse (limb0 self.s) (limb0 self.q) with w_val | e
  · rw [hmi] at h
    dsimp only at h
    rcases hg : modular_exponentiation (limb0 self.g)
        (limb0 self.h_x * w_val % 2 ^ 64 % limb0 self.q) (limb0 self.p) with _ | g_u1_val
    · rw [hg] at h
      simp at h
    · rw [hg] at h
      dsimp only at h
      rcases hy : modular_exponentiation (limb0 self.y)
          (limb0 self.r * w_val % 2 ^ 64 % limb0 self.q) (limb0 self.p) with _ | y_u2_val
      · rw [hy] at h
        simp at h
      · rw [hy] at h
        dsimp only at h
        cases h
        exact ⟨w_val, g_u1_val, y_u2_val, rfl, hg, hy, rfl⟩
  · rw [hmi] at h
    simp at h
  · rw [hmi] at h
    simp at h

/-- The example circuit instance wired up by the process entry point
(`main.rs`): p=7, q=3, g=3, y=3, h(x)=2, r=2, s=2. -/
def exampleCircuit : DSAVerificationCircuit := ⟨3, 2, 2, 2, 7, 3, 3⟩

/-- The constraint system produced by synthesising the example circuit. -/
def exampleCS : CS :=
  match generate_constraints exampleCircuit emptyCS with
  | .ok cs => cs
  | _ => emptyCS

/-- C7: On the example instance (y=3, h_x=2, r=2, s=2, p=7, q=3, g=3) the
witness computation yields w=2, u1=1, u2=1, g^u1 mod p = 3, y^u2 mod p =
3, v=2, v mod q = 2, r mod q = 2; synthesis returns Ok, and the produced
witness assignment satisfies every emitted constraint. -/
theorem C7_example_run :
    generate_constraints exampleCircuit emptyCS = .ok exampleCS ∧
      exampleCS.witnesses.take 8 = [(2 : F), 1, 1, 3, 3, 2, 2, 2] ∧
      satisfiesAll (assignmentOf exampleCS) exampleCS.constraints :=
  ⟨rfl, by decide, by decide⟩

/-- C8: A successful synthesis allocates exactly seven public inputs, in
the order y, h_x, r, s, p, q, g, all before any witness variable, and the
entry point's public-input vector coincides with them in that order. -/
theorem C8_public_input_order (self : DSAVerificationCircuit) (cs : CS)
    (h : generate_constraints self emptyCS = .ok cs) :
    cs.inputs = [self.y, self.h_x, self.r, self.s, self.p, self.q, self.g] ∧
      cs.inputs.length = 7 ∧
      cs.trace = List.replicate 7 .inp ++ List.replicate 24 .wit ∧
      mainPublicInputs self = cs.inputs := by
  obtain ⟨w_val, g_u1_val, y_u2_val, _, _, _, rfl⟩ := generate_constraints_ok_elim self cs h
  exact ⟨rfl, rfl, rfl, rfl⟩

/-- Witness for C8 at the example instance. -/
theorem C8_public_input_order_witness :
    exampleCS.inputs =
        [exampleCircuit.y, exampleCircuit.h_x, exampleCircuit.r, exampleCircuit.s,
          exampleCircuit.p, exampleCircuit.q, exampleCircuit.g] ∧
      exampleCS.inputs.length = 7 ∧
      exampleCS.trace = List.replicate 7 .inp ++ List.replicate 24 .wit ∧
      mainPublicInputs exampleCircuit = exampleCS.inputs :=
  C8_public_input_order exampleCircuit exampleCS rfl

/-- C9: The `into_repr().as_ref()[0]` reads used by `generate_constraints`
recover a field element of canonical value `v` as `v mod 2^64`, so the
read agrees with the canonical value exactly when the value fits in one
64-bit machine word. -/
theorem C9_limb_truncation (v : ℕ) (hv : v < blsR) :
    limb0 ((v : ℕ) : F) = v % 2 ^ 64 ∧ (limb0 ((v : ℕ) : F) = v ↔ v < 2 ^ 64) := by
  have hval : ((v : ℕ) : F).val = v := ZMod.val_cast_of_lt hv
  refine ⟨by rw [limb0, hval], ?_⟩
  rw [limb0, hval]
  constructor
  · intro h
    omega
  · intro h
    exact Nat.mod_eq_of_lt h

/-- Witness for C9: a value below `2^64` is read back exactly, and `2^64`
itself is truncated to `0`. -/
theorem C9_limb_truncation_witness :
    (limb0 ((5 : ℕ) : F) = 5 % 2 ^ 64 ∧ (limb0 ((5 : ℕ) : F) = 5 ↔ 5 < 2 ^ 64)) ∧
      limb0 ((2 ^ 64 : ℕ) : F) = 0 :=
  ⟨C9_limb_truncation 5 (by norm_num [blsR]), by decide⟩

/-- C10 counterexample: for m = 3*2^61 + 1 (representable in i64) and
a = m - 2, the gcd is 1 and `modular_inverse` returns Ok, but the returned
value is not below m: the intermediate `x % m + m` overflows i64 and
wraps, so the claimed bound 0 ≤ w < m fails. -/
theorem C10_counterexample :
    1 ≤ 3 * 2 ^ 61 + 1 ∧ (3 * 2 ^ 61 + 1 : ℕ) < 2 ^ 63 ∧
      Nat.gcd (3 * 2 ^ 61 + 1 - 2) (3 * 2 ^ 61 + 1) = 1 ∧
      modular_inverse (3 * 2 ^ 61 + 1 - 2) (3 * 2 ^ 61 + 1) = .ok 17293822569102704642 ∧
      ¬(17293822569102704642 < 3 * 2 ^ 61 + 1) :=
  ⟨by norm_num, by norm_num, by decide, by decide, by decide⟩

/-- C10 (amended): for `a < 2^63` and `1 ≤ m < 2^62` (so that the
adjustment `x % m + m` cannot overflow i64), `modular_inverse` returns Ok
iff `gcd a m = 1`; on success the result is a canonical inverse below `m`,
and otherwise it returns `Err(AssignmentMissing)`. -/
theorem C10_modular_inverse_spec (a m : ℕ) (ha : a < 2 ^ 63) (hm1 : 1 ≤ m) (hm : m < 2 ^ 62) :
    ((∃ w, modular_inverse a m = .ok w) ↔ Nat.gcd a m = 1) ∧
      (∀ w, modular_inverse a m = .ok w → w < m ∧ a * w % m = 1 % m) ∧
      (Nat.gcd a m ≠ 1 → modular_inverse a m = .err .assignmentMissing) := by
  have hm63 : m < 2 ^ 63 := by omega
  refine ⟨⟨?_, ?_⟩, ?_, ?_⟩
  · rintro ⟨w, hw⟩
    by_contra hg
    rw [modular_inverse_err ha hm63 hg] at hw
    cases hw
  · intro hg
    obtain ⟨w, hw, _, _⟩ := modular_inverse_ok ha hm1 hm hg
    exact ⟨w, hw⟩
  · intro w hw
    rcases eq_or_ne (Nat.gcd a m) 1 with hg | hg
    · obtain ⟨w2, hw2, hlt, hmod⟩ := modular_inverse_ok ha hm1 hm hg
      rw [hw] at hw2
      cases hw2
      exact ⟨hlt, hmod⟩
    · rw [modular_inverse_err ha hm63 hg] at hw
      cases hw
  · intro hg
    exact modular_inverse_err ha hm63 hg

/-- Witness for C10 (amended) at a = 2, m = 3. -/
theorem C10_modular_inverse_spec_witness :
    ((∃ w, modular_inverse 2 3 = .ok w) ↔ Nat.gcd 2 3 = 1) ∧
      (∀ w, modular_inverse 2 3 = .ok w → w < 3 ∧ 2 * w % 3 = 1 % 3) ∧
      (Nat.gcd 2 3 ≠ 1 → modular_inverse 2 3 = .err .assignmentMissing) :=
  C10_modular_inverse_spec 2 3 (by norm_num) (by norm_num) (by norm_num)

/-- The low 64-bit limb of a field element is below `2^64`. -/
lemma limb0_lt (x : F) : limb0 x < 2 ^ 64 := Nat.mod_lt _ (by norm_num)

/-- With a zero modulus, `modular_inverse` panics for s = 1 (the only
u64 value whose wrapped i64 gcd with 0 is 1) and otherwise fails with
`AssignmentMissing`. -/
lemma modular_inverse_zero_modulus {s : ℕ} (hs : s < 2 ^ 64) :
    modular_inverse s 0 = if s = 1 then .panic else .err .assignmentMissing := by
  have hm0 : u64AsI64 0 = 0 := by simp [u64AsI64]
  have hgcd : (extended_gcd (u64AsI64 s) 0).1 = u64AsI64 s := by
    by_cases hs0 : u64AsI64 s = 0
    · rw [extended_gcd_unfold, if_pos hs0, hs0]
    · rw [extended_gcd_unfold, if_neg hs0]
      dsimp only
      rw [extended_gcd_unfold]
      simp [Int.zero_tmod, hs0]
  have hone : u64AsI64 s = 1 ↔ s = 1 := by
    unfold u64AsI64
    split_ifs with h
    · constructor
      · intro hh
        exact_mod_cast hh
      · intro hh
        exact_mod_cast hh
    · constructor
      · intro hh
        omega
      · intro hh
        omega
  by_cases h1 : s = 1
  · subst h1
    simp only [modular_inverse, hm0, hgcd, if_pos rfl]
    simp [hone.mpr rfl]
  · simp only [modular_inverse, hm0, hgcd]
    have : u64AsI64 s ≠ 1 := fun hh => h1 (hone.mp hh)
    simp [this, h1]

/-- C3 counterexample circuit: s reads back as 2^63 + 4 and q as 9, whose
gcd is 3, yet synthesis succeeds: the `u64 as i64` cast wraps s to a
negative value whose extended-gcd run returns 1. -/
def c3Circuit : DSAVerificationCircuit := ⟨3, 2, 2, ((2 ^ 63 + 4 : ℕ) : F), 7, 9, 3⟩

/-- The constraint system produced by synthesising the C3 counterexample
circuit. -/
def c3CS : CS :=
  match generate_constraints c3Circuit emptyCS with
  | .ok cs => cs
  | _ => emptyCS

/-- C3 counterexample: an instance with gcd(s, q) = 3 ≠ 1 on which
`generate_constraints` nevertheless returns Ok rather than a synthesis
error. -/
theorem C3_counterexample :
    Nat.gcd (limb0 c3Circuit.s) (limb0 c3Circuit.q) = 3 ∧
      generate_constraints c3Circuit emptyCS = .ok c3CS :=
  ⟨by decide, rfl⟩

/-- C3 (amended): for every circuit instance whose s and q values (the
low-limb u64 reads) are both below `2^63` — i.e. nonnegative as i64 — and
satisfy gcd(s, q) ≠ 1 (including s = 0 with q > 1), synthesis returns the
`AssignmentMissing` error produced by `modular_inverse` before allocating
any variable or enforcing any constraint, leaving the constraint system
unchanged. -/
theorem C3_uninvertible_aborts (self : DSAVerificationCircuit) (cs0 : CS)
    (hs : limb0 self.s < 2 ^ 63) (hq : limb0 self.q < 2 ^ 63)
    (hg : Nat.gcd (limb0 self.s) (limb0 self.q) ≠ 1) :
    generate_constraints self cs0 = .err .assignmentMissing cs0 :=
  generate_constraints_err_of_mi self cs0 _ (modular_inverse_err hs hq hg)

/-- Witness for C3 (amended) at s = 0, q = 3 with an arbitrary nonempty
initial system. -/
theorem C3_uninvertible_aborts_witness :
    generate_constraints ⟨3, 2, 2, 0, 7, 3, 3⟩ emptyCS = .err .assignmentMissing emptyCS :=
  C3_uninvertible_aborts ⟨3, 2, 2, 0, 7, 3, 3⟩ emptyCS (by decide) (by decide) (by decide)

/-- C6 counterexample: with q = 0 and s = 1 the inverse computation hits
`x % 0` and panics; with p = 0 (and invertible s) the exponentiation hits
`base % 0` and panics.  Neither is a reported synthesis error. -/
theorem C6_counterexample :
    limb0 (DSAVerificationCircuit.q ⟨3, 2, 2, 1, 7, 0, 3⟩) = 0 ∧
      generate_constraints ⟨3, 2, 2, 1, 7, 0, 3⟩ emptyCS = .panic ∧
      limb0 (DSAVerificationCircuit.p ⟨3, 2, 2, 2, 0, 3, 3⟩) = 0 ∧
      generate_constraints ⟨3, 2, 2, 2, 0, 3, 3⟩ emptyCS = .panic :=
  ⟨by decide, by decide, by decide, by decide⟩

/-- C6 (amended): with a zero q the run is a reported `AssignmentMissing`
synthesis error exactly when s ≠ 1, and a division-by-zero panic when
s = 1; with a zero p, any run whose inverse computation succeeds panics in
the exponentiation.  A zero modulus is therefore not always reported as a
synthesis error: the s = 1 and p = 0 cases crash. -/
theorem C6_zero_modulus (self : DSAVerificationCircuit) (cs0 : CS) :
    (limb0 self.q = 0 →
      generate_constraints self cs0 =
        if limb0 self.s = 1 then .panic else .err .assignmentMissing cs0) ∧
    (limb0 self.p = 0 → ∀ w_val, modular_inverse (limb0 self.s) (limb0 self.q) = .ok w_val →
      generate_constraints self cs0 = .panic) := by
  constructor
  · intro hq0
    have hmi := modular_inverse_zero_modulus (limb0_lt self.s)
    by_cases h1 : limb0 self.s = 1
    · rw [if_pos h1]
      rw [if_pos h1] at hmi
      exact generate_constraints_panic_of_mi self cs0 (by rw [hq0]; exact hmi)
    · rw [if_neg h1]
      rw [if_neg h1] at hmi
      exact generate_constraints_err_of_mi self cs0 _ (by rw [hq0]; exact hmi)
  · intro hp0 w_val hmi
    refine generate_constraints_panic_of_exp self cs0 w_val hmi ?_
    rw [hp0]
    simp [modular_exponentiation]

/-- Witness for C6 (amended): q = 0 with s = 2 yields the synthesis error;
p = 0 with invertible s = 2 panics. -/
theorem C6_zero_modulus_witness :
    generate_constraints ⟨3, 2, 2, 2, 7, 0, 3⟩ emptyCS = .err .assignmentMissing emptyCS ∧
      generate_constraints ⟨3, 2, 2, 2, 0, 3, 3⟩ emptyCS = .panic := by
  constructor
  · have h := (C6_zero_modulus ⟨3, 2, 2, 2, 7, 0, 3⟩ emptyCS).1 (by decide)
    rw [if_neg (by decide)] at h
    exact h
  · exact (C6_zero_modulus ⟨3, 2, 2, 2, 0, 3, 3⟩ emptyCS).2 (by decide) 2 (by decide)

/-- C4 counterexample: on the example instance the emitted system has 17
constraints; two-per-gadget beyond the four multiplications (plus the one
final equality) would give 4*(1+2) + 1 = 13. -/
theorem C4_counterexample :
    generate_constraints exampleCircuit emptyCS = .ok exampleCS ∧
      exampleCS.constraints.length = 17 ∧ (17 : ℕ) ≠ 4 * (1 + 2) + 1 :=
  ⟨rfl, by decide, by decide⟩

/-- C4 (amended): each of the four modular-reduction gadget invocations
emits exactly three constraints beyond the multiplication that produced
its dividend: the modulus-times-quotient product, the
difference-equals-remainder constraint, and the remainder-equals-expected
equality. -/
theorem C4_constraints_per_gadget (self : DSAVerificationCircuit) (cs : CS)
    (h : generate_constraints self emptyCS = .ok cs) :
    cs.constraints = gadget1Constraints ++ gadget2Constraints ++ gadget3Constraints ++
        gadget4Constraints ++ [finalConstraint] ∧
      gadget1Constraints.tail.length = 3 ∧ gadget2Constraints.tail.length = 3 ∧
      gadget3Constraints.tail.length = 3 ∧ gadget4Constraints.tail.length = 3 := by
  obtain ⟨w_val, g_u1_val, y_u2_val, _, _, _, rfl⟩ := generate_constraints_ok_elim self cs h
  exact ⟨rfl, rfl, rfl, rfl, rfl⟩

/-- Witness for C4 (amended) at the example instance. -/
theorem C4_constraints_per_gadget_witness :
    exampleCS.constraints = gadget1Constraints ++ gadget2Constraints ++ gadget3Constraints ++
        gadget4Constraints ++ [finalConstraint] ∧
      gadget1Constraints.tail.length = 3 ∧ gadget2Constraints.tail.length = 3 ∧
      gadget3Constraints.tail.length = 3 ∧ gadget4Constraints.tail.length = 3 :=
  C4_constraints_per_gadget exampleCircuit exampleCS rfl

/-- Two assignments give a linear combination the same value when they
agree on every variable occurring in it. -/
lemma evalLC_agree {asn asn2 : Assignment} {l : LC}
    (h : ∀ v : Var, occursLC v l → evalVar asn2 v = evalVar asn v) :
    evalLC asn2 l = evalLC asn l := by
  unfold evalLC
  congr 1
  refine List.map_congr_left ?_
  intro t ht
  rw [h t.2 ⟨t, ht, rfl⟩]

/-- A constraint keeps its satisfaction status under any assignment change
that does not touch the variables it mentions. -/
lemma satisfied_of_agree {asn asn2 : Assignment} {c : Constraint}
    (h : ∀ v : Var, mentions c v → evalVar asn2 v = evalVar asn v)
    (hs : satisfied asn c) : satisfied asn2 c := by
  unfold satisfied at hs ⊢
  rw [evalLC_agree fun v hv => h v (Or.inl hv),
    evalLC_agree fun v hv => h v (Or.inr (Or.inl hv)),
    evalLC_agree fun v hv => h v (Or.inr (Or.inr hv))]
  exact hs

/-- Overwrite the `v_mod_q` (index 6) and `r_mod_q` (index 7) witnesses of
an assignment with a common value `z`. -/
def updVmodRmod (asn : Assignment) (z : F) : Assignment :=
  ⟨asn.inp, fun i => if i = 6 ∨ i = 7 then z else asn.wit i⟩

/-- C5: In the emitted system, the witnesses `v_mod_q` (wit 6) and
`r_mod_q` (wit 7) are mentioned only by the single final equality
constraint `(v_mod_q - r_mod_q) * 1 = 0`; any assignment giving them a
common value satisfies that constraint, and overwriting both with an
arbitrary common value preserves satisfaction of the whole system. -/
theorem C5_final_equality_isolated (self : DSAVerificationCircuit) (cs : CS)
    (h : generate_constraints self emptyCS = .ok cs) :
    cs.constraints = circuitConstraints ∧
      (∀ c ∈ circuitConstraints,
        mentions c (.wit 6) ∨ mentions c (.wit 7) → c = finalConstraint) ∧
      (∀ asn : Assignment, asn.wit 6 = asn.wit 7 → satisfied asn finalConstraint) ∧
      (∀ asn : Assignment, satisfiesAll asn circuitConstraints →
        ∀ z : F, satisfiesAll (updVmodRmod asn z) circuitConstraints) := by
  obtain ⟨w_val, g_u1_val, y_u2_val, _, _, _, rfl⟩ := generate_constraints_ok_elim self cs h
  have hocc : ∀ c ∈ circuitConstraints,
      mentions c (.wit 6) ∨ mentions c (.wit 7) → c = finalConstraint := by decide
  refine ⟨rfl, hocc, ?_, ?_⟩
  · intro asn hasn
    simp [satisfied, finalConstraint, evalLC, evalVar, hasn]
  · intro asn hsat z c hc
    by_cases hf : c = finalConstraint
    · subst hf
      simp [satisfied, finalConstraint, evalLC, evalVar, updVmodRmod]
    · refine satisfied_of_agree ?_ (hsat c hc)
      intro v hv
      cases v with
      | one => rfl
      | inp i => rfl
      | wit i =>
        show (if i = 6 ∨ i = 7 then z else asn.wit i) = asn.wit i
        have h6 : i ≠ 6 := by
          intro hh
          subst hh
          exact hf (hocc c hc (Or.inl hv))
        have h7 : i ≠ 7 := by
          intro hh
          subst hh
          exact hf (hocc c hc (Or.inr hv))
        simp [h6, h7]

/-- Witness for C5 at the example instance, exercising the overwrite with
value 9 on the honest satisfying assignment. -/
theorem C5_final_equality_isolated_witness :
    exampleCS.constraints = circuitConstraints ∧
      satisfiesAll (updVmodRmod (assignmentOf exampleCS) 9) circuitConstraints := by
  obtain ⟨h1, _, _, h4⟩ := C5_final_equality_isolated exampleCircuit exampleCS rfl
  refine ⟨h1, h4 (assignmentOf exampleCS) ?_ 9⟩
  rw [← h1]
  decide

/-- The three constraints a modular-reduction gadget invocation emits
beyond the multiplication that produced its dividend, parameterized by the
modulus variable, the dividend/remainder/quotient/product witness indices
and the expected-remainder variable. -/
def gadgetTail (modv : Var) (divw remw quotw qtmw : ℕ) (expv : Var) : List Constraint :=
  [⟨[(1, modv)], [(1, .wit quotw)], [(1, .wit qtmw)]⟩,
   ⟨[(1, .wit divw), (-1, .wit qtmw)], [(1, .one)], [(1, .wit remw)]⟩,
   ⟨[(1, .wit remw), (-1, expv)], [(1, .one)], [(0, .one)]⟩]

/-- Field semantics of a gadget tail: an assignment satisfies its three
constraints exactly when the three field equations
`modulus * quotient = quotient_times_modulus`,
`dividend - quotient_times_modulus = remainder` and
`remainder = expected` hold; satisfaction then forces
`dividend - modulus*quotient - remainder = 0` as a field identity.  No
constraint bounds the remainder. -/
lemma gadgetTail_semantics (asn : Assignment) (modv expv : Var)
    (divw remw quotw qtmw : ℕ) :
    (satisfiesAll asn (gadgetTail modv divw remw quotw qtmw expv) ↔
      (evalVar asn modv * asn.wit quotw = asn.wit qtmw ∧
        asn.wit divw - asn.wit qtmw = asn.wit remw ∧
        asn.wit remw = evalVar asn expv)) ∧
    (satisfiesAll asn (gadgetTail modv divw remw quotw qtmw expv) →
      asn.wit divw - evalVar asn modv * asn.wit quotw - asn.wit remw = 0) := by
  have hexp : satisfiesAll asn (gadgetTail modv divw remw quotw qtmw expv) ↔
      (evalVar asn modv * asn.wit quotw = asn.wit qtmw ∧
        asn.wit divw - asn.wit qtmw = asn.wit remw ∧
        asn.wit remw = evalVar asn expv) := by
    simp only [satisfiesAll, gadgetTail, List.mem_cons, List.not_mem_nil, or_false,
      forall_eq_or_imp, forall_eq, satisfied, evalLC, List.map_cons, List.map_nil,
      List.sum_cons, List.sum_nil, evalVar]
    constructor
    · rintro ⟨h1, h2, h3⟩
      refine ⟨by linear_combination h1, by linear_combination h2, by linear_combination h3⟩
    · rintro ⟨h1, h2, h3⟩
      refine ⟨by linear_combination h1, by linear_combination h2, by linear_combination h3⟩
  refine ⟨hexp, ?_⟩
  intro hs
  obtain ⟨h1, h2, h3⟩ := hexp.mp hs
  linear_combination h2 - h1

/-- C2: For each of the four gadget instances in the emitted system, an
assignment satisfies the gadget's three reduction constraints iff the
three field equations hold (modulus*quotient = quotient_times_modulus,
dividend - quotient_times_modulus = remainder, remainder = expected);
satisfaction forces dividend - quotient*modulus - remainder = 0 as a field
identity, and no constraint bounds the remainder, so these equations are
the full content of the gadget. -/
theorem C2_gadget_field_semantics (self : DSAVerificationCircuit) (cs : CS)
    (h : generate_constraints self emptyCS = .ok cs) (asn : Assignment) :
    cs.constraints = gadget1Constraints ++ gadget2Constraints ++ gadget3Constraints ++
        gadget4Constraints ++ [finalConstraint] ∧
      ((satisfiesAll asn gadget1Constraints.tail ↔
          (asn.inp 5 * asn.wit 10 = asn.wit 11 ∧
            asn.wit 8 - asn.wit 11 = asn.wit 9 ∧ asn.wit 9 = 1)) ∧
        (satisfiesAll asn gadget1Constraints.tail →
          asn.wit 8 - asn.inp 5 * asn.wit 10 - asn.wit 9 = 0)) ∧
      ((satisfiesAll asn gadget2Constraints.tail ↔
          (asn.inp 5 * asn.wit 14 = asn.wit 15 ∧
            asn.wit 12 - asn.wit 15 = asn.wit 13 ∧ asn.wit 13 = asn.wit 1)) ∧
        (satisfiesAll asn gadget2Constraints.tail →
          asn.wit 12 - asn.inp 5 * asn.wit 14 - asn.wit 13 = 0)) ∧
      ((satisfiesAll asn gadget3Constraints.tail ↔
          (asn.inp 5 * asn.wit 18 = asn.wit 19 ∧
            asn.wit 16 - asn.wit 19 = asn.wit 17 ∧ asn.wit 17 = asn.wit 2)) ∧
        (satisfiesAll asn gadget3Constraints.tail →
          asn.wit 16 - asn.inp 5 * asn.wit 18 - asn.wit 17 = 0)) ∧
      ((satisfiesAll asn gadget4Constraints.tail ↔
          (asn.inp 4 * asn.wit 22 = asn.wit 23 ∧
            asn.wit 20 - asn.wit 23 = asn.wit 21 ∧ asn.wit 21 = asn.wit 5)) ∧
        (satisfiesAll asn gadget4Constraints.tail →
          asn.wit 20 - asn.inp 4 * asn.wit 22 - asn.wit 21 = 0)) := by
  obtain ⟨w_val, g_u1_val, y_u2_val, _, _, _, rfl⟩ := generate_constraints_ok_elim self cs h
  refine ⟨rfl, ?_, ?_, ?_, ?_⟩
  · exact gadgetTail_semantics asn (.inp 5) (.one) 8 9 10 11
  · exact gadgetTail_semantics asn (.inp 5) (.wit 1) 12 13 14 15
  · exact gadgetTail_semantics asn (.inp 5) (.wit 2) 16 17 18 19
  · exact gadgetTail_semantics asn (.inp 4) (.wit 5) 20 21 22 23

/-- Witness for C2 at the example instance with its honest assignment. -/
theorem C2_gadget_field_semantics_witness :
    (satisfiesAll (assignmentOf exampleCS) gadget1Constraints.tail ↔
      ((assignmentOf exampleCS).inp 5 * (assignmentOf exampleCS).wit 10 =
          (assignmentOf exampleCS).wit 11 ∧
        (assignmentOf exampleCS).wit 8 - (assignmentOf exampleCS).wit 11 =
          (assignmentOf exampleCS).wit 9 ∧
        (assignmentOf exampleCS).wit 9 = 1)) ∧
      satisfiesAll (assignmentOf exampleCS) gadget1Constraints.tail :=
  ⟨((C2_gadget_field_semantics exampleCircuit exampleCS rfl (assignmentOf exampleCS)).2.1).1,
    by decide⟩

/-- A dishonest assignment: honest-shaped values for the first three
gadgets built from any field solution `(w, wsq)` of
`w*s - q*wsq = 1`, with the exponentiation results replaced by `t1 + 1`
and `t2 + 1` and the downstream product chain adjusted to match. -/
def cheatAssignment (self : DSAVerificationCircuit) (w wsq t1 t2 : F) : Assignment :=
  ⟨fun i => (mainPublicInputs self).getD i 0,
   fun i =>
     match i with
     | 0 => w
     | 1 => self.h_x * w
     | 2 => self.r * w
     | 3 => t1 + 1
     | 4 => t2 + 1
     | 5 => (t1 + 1) * (t2 + 1)
     | 6 => 0
     | 7 => 0
     | 8 => w * self.s
     | 9 => 1
     | 10 => wsq
     | 11 => self.q * wsq
     | 12 => self.h_x * w
     | 13 => self.h_x * w
     | 14 => 0
     | 15 => 0
     | 16 => self.r * w
     | 17 => self.r * w
     | 18 => 0
     | 19 => 0
     | 20 => (t1 + 1) * (t2 + 1)
     | 21 => (t1 + 1) * (t2 + 1)
     | 22 => 0
     | 23 => 0
     | _ => 0⟩

/-- The cheating assignment satisfies all seventeen emitted constraints
whenever `w*s - q*wsq = 1` holds in the field. -/
lemma cheatAssignment_satisfies (self : DSAVerificationCircuit) (w wsq t1 t2 : F)
    (hkey : w * self.s - self.q * wsq = 1) :
    satisfiesAll (cheatAssignment self w wsq t1 t2) circuitConstraints := by
  set asn := cheatAssignment self w wsq t1 t2 with hasn
  have e1 : asn.inp 1 = self.h_x := rfl
  have e2 : asn.inp 2 = self.r := rfl
  have e3 : asn.inp 3 = self.s := rfl
  have e4 : asn.inp 4 = self.p := rfl
  have e5 : asn.inp 5 = self.q := rfl
  have f0 : asn.wit 0 = w := rfl
  have f1 : asn.wit 1 = self.h_x * w := rfl
  have f2 : asn.wit 2 = self.r * w := rfl
  have f3 : asn.wit 3 = t1 + 1 := rfl
  have f4 : asn.wit 4 = t2 + 1 := rfl
  have f5 : asn.wit 5 = (t1 + 1) * (t2 + 1) := rfl
  have f6 : asn.wit 6 = (0 : F) := rfl
  have f7 : asn.wit 7 = (0 : F) := rfl
  have f8 : asn.wit 8 = w * self.s := rfl
  have f9 : asn.wit 9 = (1 : F) := rfl
  have f10 : asn.wit 10 = wsq := rfl
  have f11 : asn.wit 11 = self.q * wsq := rfl
  have f12 : asn.wit 12 = self.h_x * w := rfl
  have f13 : asn.wit 13 = self.h_x * w := rfl
  have f14 : asn.wit 14 = (0 : F) := rfl
  have f15 : asn.wit 15 = (0 : F) := rfl
  have f16 : asn.wit 16 = self.r * w := rfl
  have f17 : asn.wit 17 = self.r * w := rfl
  have f18 : asn.wit 18 = (0 : F) := rfl
  have f19 : asn.wit 19 = (0 : F) := rfl
  have f20 : asn.wit 20 = (t1 + 1) * (t2 + 1) := rfl
  have f21 : asn.wit 21 = (t1 + 1) * (t2 + 1) := rfl
  have f22 : asn.wit 22 = (0 : F) := rfl
  have f23 : asn.wit 23 = (0 : F) := rfl
  intro c hc
  simp only [circuitConstraints, gadget1Constraints, gadget2Constraints, gadget3Constraints,
    gadget4Constraints, finalConstraint, List.mem_append, List.mem_cons,
    List.not_mem_nil, or_false] at hc
  rcases hc with ((((hc | hc | hc | hc) | (hc | hc | hc | hc)) | (hc | hc | hc | hc)) |
      (hc | hc | hc | hc)) | hc
  all_goals subst hc
  all_goals simp only [satisfied, evalLC, evalVar, List.map_cons, List.map_nil, List.sum_cons,
    List.sum_nil, e1, e2, e3, e4, e5, f0, f1, f2, f3, f4, f5, f6, f7, f8, f9, f10, f11,
    f12, f13, f14, f15, f16, f17, f18, f19, f20, f21, f22, f23]
  all_goals show _ = _
  all_goals first
    | exact hkey
    | linear_combination hkey
    | ring

/-- C1: In the emitted system, no constraint binds the exponent witnesses
u1 (wit 1) and u2 (wit 2) to the exponentiation results g_u1 (wit 3) and
y_u2 (wit 4): every constraint mentioning g_u1 or y_u2 belongs to the
fourth gadget (v = g_u1*y_u2 mod p) and mentions neither u1 nor u2.
Consequently, for every instance on which synthesis succeeds there is an
assignment, agreeing with the instance on all public inputs, that
satisfies every emitted constraint while giving g_u1 and y_u2 values
different from the honestly computed g^u1 mod p and y^u2 mod p, their
product still matching the assignment's v witness. -/
theorem C1_unconstrained_exponentiation (self : DSAVerificationCircuit) (cs : CS)
    (h : generate_constraints self emptyCS = .ok cs) :
    (∀ c ∈ cs.constraints,
        mentions c (.wit 3) ∨ mentions c (.wit 4) → c ∈ gadget4Constraints) ∧
      (∀ c ∈ cs.constraints,
        mentions c (.wit 3) ∨ mentions c (.wit 4) →
          ¬(mentions c (.wit 1) ∨ mentions c (.wit 2))) ∧
      ∃ asn : Assignment,
        (∀ i, asn.inp i = (mainPublicInputs self).getD i 0) ∧
          satisfiesAll asn cs.constraints ∧
          asn.wit 3 ≠ cs.witnesses.getD 3 0 ∧
          asn.wit 4 ≠ cs.witnesses.getD 4 0 ∧
          asn.wit 3 * asn.wit 4 = asn.wit 5 := by
  obtain ⟨w_val, g_u1_val, y_u2_val, hmi, hg, hy, rfl⟩ := generate_constraints_ok_elim self cs h
  have hnz : self.s ≠ 0 ∨ self.q ≠ 0 := by
    by_contra hcon
    push_neg at hcon
    obtain ⟨hs0, hq0⟩ := hcon
    rw [hs0, hq0] at hmi
    rw [show modular_inverse (limb0 (0 : F)) (limb0 (0 : F)) = .err .assignmentMissing from
      by decide] at hmi
    cases hmi
  have hkey : ∃ w wsq : F, w * self.s - self.q * wsq = 1 := by
    rcases hnz with hs | hq
    · refine ⟨self.s⁻¹, 0, ?_⟩
      rw [mul_zero, sub_zero, inv_mul_cancel₀ hs]
    · refine ⟨0, -self.q⁻¹, ?_⟩
      rw [zero_mul, mul_neg, mul_inv_cancel₀ hq]
      ring
  obtain ⟨w, wsq, hk⟩ := hkey
  refine ⟨?_, ?_,
    cheatAssignment self w wsq (g_u1_val : F) (y_u2_val : F), fun i => rfl,
    cheatAssignment_satisfies self w wsq _ _ hk, ?_, ?_, rfl⟩
  · show ∀ c ∈ circuitConstraints,
        mentions c (.wit 3) ∨ mentions c (.wit 4) → c ∈ gadget4Constraints
    decide
  · show ∀ c ∈ circuitConstraints,
        mentions c (.wit 3) ∨ mentions c (.wit 4) →
          ¬(mentions c (.wit 1) ∨ mentions c (.wit 2))
    decide
  · show (g_u1_val : F) + 1 ≠ (g_u1_val : F)
    intro hcontra
    have h10 : (1 : F) = 0 := by linear_combination hcontra
    exact one_ne_zero h10
  · show (y_u2_val : F) + 1 ≠ (y_u2_val : F)
    intro hcontra
    have h10 : (1 : F) = 0 := by linear_combination hcontra
    exact one_ne_zero h10

/-- Witness for C1 at the example instance. -/
theorem C1_unconstrained_exponentiation_witness :
    (∀ c ∈ exampleCS.constraints,
        mentions c (.wit 3) ∨ mentions c (.wit 4) → c ∈ gadget4Constraints) ∧
      (∀ c ∈ exampleCS.constraints,
        mentions c (.wit 3) ∨ mentions c (.wit 4) →
          ¬(mentions c (.wit 1) ∨ mentions c (.wit 2))) ∧
      ∃ asn : Assignment,
        (∀ i, asn.inp i = (mainPublicInputs exampleCircuit).getD i 0) ∧
          satisfiesAll asn exampleCS.constraints ∧
          asn.wit 3 ≠ exampleCS.witnesses.getD 3 0 ∧
          asn.wit 4 ≠ exampleCS.witnesses.getD 4 0 ∧
          asn.wit 3 * asn.wit 4 = asn.wit 5 :=
  C1_unconstrained_exponentiation exampleCircuit exampleCS rfl
